import Mathlib

/-!
Verification of the flightctl deployment helper scripts.

This file gives a shallow embedding of three Python scripts:

* `deploy/scripts/yaml_helpers.py` — the dot-path extractor over parsed YAML
  documents (`extract_value_as_yaml`, `_handle_error`, `extract_command`);
* `deploy/scripts/yaml-to-json.py` — the streaming YAML-to-JSON converter;
* `test/scripts/filter_e2e_output.py` — the JUnit XML report filter
  (`filter_junit_xml`).

Parsed YAML documents are modelled by the inductive type `Yaml` (PyYAML
`safe_load` yields nested dicts with string keys, lists, strings, ints,
bools and `None`; floats and timestamps are not exercised by any claim and
are omitted).  Library calls made by the scripts (`yaml.dump`, `str.split`,
`str.rstrip`, `str()`, `json.dumps`, `int()`, ElementTree accessors) are
modelled by executable Lean functions that follow the library's documented
behaviour; each such model carries a comment saying what it models.
-/

/-! ## String utilities -/

/-- Models Python's lexicographic string comparison (`a <= b` compares the
character code points left to right), applied to character lists. -/
def charListLe : List Char → List Char → Bool
  | [], _ => true
  | _ :: _, [] => false
  | c :: cs, d :: ds => c < d || (c == d && charListLe cs ds)

/-- Models `str.split('.')`: cut the character list at every dot, keeping
empty pieces (so `""` splits to `[""]` and `".."` to `["", "", ""]`). -/
def splitDotsAux : List Char → List Char → List String
  | [], acc => [⟨acc.reverse⟩]
  | c :: cs, acc =>
    if c = '.' then ⟨acc.reverse⟩ :: splitDotsAux cs [] else splitDotsAux cs (c :: acc)

/-- Models Python's `path.split('.')`. -/
def splitDots (s : String) : List String := splitDotsAux s.data []

/-- Models Python's `s.rstrip('\n')`: drop every trailing newline. -/
def rstripNl (s : String) : String :=
  ⟨(s.data.reverse.dropWhile (fun c => c == '\n')).reverse⟩

/-- Join lines with a single newline between consecutive lines (the body of
a block-style dump before the final trailing newline). -/
def joinLines : List String → String
  | [] => ""
  | [l] => l
  | l :: ls => l ++ "\n" ++ joinLines ls

/-- Concatenation of a list of strings (no separator). -/
def concatAll : List String → String
  | [] => ""
  | x :: xs => x ++ concatAll xs

/-- Decimal digit character: `digitChar n` is the character for digit `n`. -/
def digitChar (n : Nat) : Char := Char.ofNat (48 + n)

/-- Decimal representation of a natural number, most significant digit
first.  The fuel argument only bounds the recursion depth; `natRepr`
supplies enough fuel for every input. -/
def natReprAux : Nat → Nat → List Char
  | 0, _ => []
  | fuel+1, n => if n < 10 then [digitChar n] else natReprAux fuel (n / 10) ++ [digitChar (n % 10)]

/-- Models Python's `str(n)` for a non-negative integer. -/
def natRepr (n : Nat) : String := ⟨natReprAux (n + 1) n⟩

/-- Models Python's `str(i)` for an integer (a leading `-` for negatives). -/
def intRepr (i : Int) : String := if i < 0 then "-" ++ natRepr i.natAbs else natRepr i.toNat

/-- `prefixOfB needle hay` is true iff `needle` is a prefix of `hay`. -/
def prefixOfB : List Char → List Char → Bool
  | [], _ => true
  | _ :: _, [] => false
  | c :: cs, d :: ds => c == d && prefixOfB cs ds

/-- Models Python's substring test `needle in hay`. -/
def infixOfB (needle : List Char) : List Char → Bool
  | [] => prefixOfB needle []
  | c :: t => prefixOfB needle (c :: t) || infixOfB needle t

/-! ## The YAML value model -/

/-- A parsed YAML document as produced by `yaml.safe_load`: nested dicts
with string keys (insertion order preserved), lists, and scalar leaves. -/
inductive Yaml where
  | null
  | bool (b : Bool)
  | int (n : Int)
  | str (s : String)
  | seq (items : List Yaml)
  | map (pairs : List (String × Yaml))
deriving Repr

/-- True on the non-composite constructors (incl. `null`). -/
def Yaml.isScalarB : Yaml → Bool
  | .map _ => false
  | .seq _ => false
  | _ => true

/-- True only on mappings. -/
def Yaml.isMap : Yaml → Bool
  | .map _ => true
  | _ => false

/-- Key order used by the sorter: compare the key strings. -/
def keyLe (a b : String × Yaml) : Prop := charListLe a.1.data b.1.data = true

instance : DecidableRel keyLe := fun _ _ => inferInstanceAs (Decidable (_ = true))

/-- Models the `sorted(mapping.items())` step of PyYAML's
`represent_mapping` (the default `sort_keys=True` path of `yaml.dump`).
Python dict keys are unique, so comparing only the keys is faithful; a
stable sort by a total order is unique, so insertion sort matches Python's
`sorted`. -/
def sortPairs (ps : List (String × Yaml)) : List (String × Yaml) :=
  List.insertionSort keyLe ps

/-- Models PyYAML's plain-style resolver check, restricted to the
identifier-like strings used in these documents: a plain (unquoted) scalar
must start with a letter or underscore, contain only alphanumerics,
`_`, `-`, `/` or spaces, and not collide with a YAML keyword. -/
def plainOk (s : String) : Bool :=
  match s.data with
  | [] => false
  | c :: _ =>
    (c.isAlpha || c == '_')
      && s.data.all (fun d => d.isAlphanum || d == '_' || d == '-' || d == '/' || d == ' ')
      && !(["true", "false", "True", "False", "null", "Null", "yes", "no", "on",
            "off", "Yes", "No", "On", "Off"].contains s)

/-- Double a single quote, as inside a YAML single-quoted scalar. -/
def squoteEscape (l : List Char) : List Char :=
  l.flatMap (fun c => if c == Char.ofNat 39 then [c, c] else [c])

/-- Models PyYAML's representation of a string scalar: plain when the
resolver allows it, single-quoted otherwise. -/
def strRepr (s : String) : String :=
  if plainOk s then s
  else ⟨Char.ofNat 39 :: squoteEscape s.data ++ [Char.ofNat 39]⟩

/-- Models the SafeRepresenter's text for one scalar node (`yaml.dump`):
`null`, `true`/`false`, decimal integers, plain or quoted strings.  The
composite cases are never consulted. -/
def scalarRepr : Yaml → String
  | .null => "null"
  | .bool true => "true"
  | .bool false => "false"
  | .int n => intRepr n
  | .str s => strRepr s
  | _ => ""

/-- Indent a block two spaces, as PyYAML does for a nested mapping. -/
def indent2 (ls : List String) : List String := ls.map (fun l => "  " ++ l)

/-- Put a sequence dash before the first line of an item's block and align
its remaining lines. -/
def dashFirst : List String → List String
  | [] => []
  | l :: ls => ("- " ++ l) :: indent2 ls

mutual

/-- Size of a YAML value: an executable bound on the nesting depth, used
as recursion fuel for the dump. -/
def ysize : Yaml → Nat
  | .map ps => 1 + ysizePairs ps
  | .seq xs => 1 + ysizeItems xs
  | _ => 1

/-- Summed size of sequence items. -/
def ysizeItems : List Yaml → Nat
  | [] => 0
  | v :: vs => ysize v + ysizeItems vs

/-- Summed size of mapping entries. -/
def ysizePairs : List (String × Yaml) → Nat
  | [] => 0
  | p :: ps => ysize p.2 + ysizePairs ps

end

/-- Lines of the block-style serialization of a composite value, following
`yaml.dump(..., default_flow_style=False)`: one `key: value` line per
scalar entry, nested mappings indented two spaces under their key,
sequences rendered with indentless dashes, empty collections in flow style
(`{}` / `[]`), and mapping keys visited in sorted order.  The fuel
argument only bounds the recursion depth; `yaml_dump` supplies
`ysize`, which exceeds the nesting depth of every value. -/
def blockLinesF : Nat → Yaml → List String
  | f+1, .map ps => (sortPairs ps).flatMap (fun p =>
      match p.2 with
      | .map [] => [strRepr p.1 ++ ": \x7b\x7d"]
      | .seq [] => [strRepr p.1 ++ ": []"]
      | .map qs => (strRepr p.1 ++ ":") :: indent2 (blockLinesF f (.map qs))
      | .seq xs => (strRepr p.1 ++ ":") :: blockLinesF f (.seq xs)
      | v => [strRepr p.1 ++ ": " ++ scalarRepr v])
  | f+1, .seq xs => xs.flatMap (fun v =>
      match v with
      | .map [] => ["- \x7b\x7d"]
      | .seq [] => ["- []"]
      | .map qs => dashFirst (blockLinesF f (.map qs))
      | .seq ys => dashFirst (blockLinesF f (.seq ys))
      | v => ["- " ++ scalarRepr v])
  | _, v => [scalarRepr v]

/-- Models `yaml.dump(value, default_flow_style=False, allow_unicode=True,
default_style=None, explicit_start=False, explicit_end=False)` as called
in `extract_value_as_yaml`: block style, keys sorted (PyYAML's default
`sort_keys=True`), one trailing newline; empty collections come out in
flow style, and a top-level scalar gets the `...` end marker. -/
def yaml_dump (v : Yaml) : String :=
  match v with
  | .map [] => "\x7b\x7d\n"
  | .seq [] => "[]\n"
  | .null => "null\n...\n"
  | .bool b => scalarRepr (.bool b) ++ "\n...\n"
  | .int n => intRepr n ++ "\n...\n"
  | .str s => strRepr s ++ "\n...\n"
  | w => joinLines (blockLinesF (ysize w) w) ++ "\n"

/-- Models Python's `str(value)` on the scalar values reachable at the end
of `extract_value_as_yaml` (dict/list/None never reach it). -/
def pyStr : Yaml → String
  | .null => "None"
  | .bool true => "True"
  | .bool false => "False"
  | .int n => intRepr n
  | .str s => s
  | _ => ""

/-! ## yaml_helpers.py: extract_value_as_yaml -/

/-- Models `part in current` / `current[part]` on a parsed YAML mapping
(dict keys are unique, so the first match is the match). -/
def lookupStr (k : String) : List (String × Yaml) → Option Yaml
  | [] => none
  | (k', v) :: rest => if k' = k then some v else lookupStr k rest

/-- The traversal loop of `extract_value_as_yaml`: walk the split path,
skipping empty segments; descend only into mappings; `none` is the
function's early `return None` for a missing key or a non-dict current
value. -/
def resolveParts : List String → Yaml → Option Yaml
  | [], cur => some cur
  | part :: rest, cur =>
    if part = "" then resolveParts rest cur
    else
      match cur with
      | .map pairs =>
        match lookupStr part pairs with
        | some v => resolveParts rest v
        | none => none
      | _ => none

/-- The tail of `extract_value_as_yaml` after the loop: `None` is reported
as not found; dicts and lists are dumped as YAML with the trailing newline
stripped; any other value is rendered with `str`. -/
def renderResolved : Yaml → Option String
  | .null => none
  | .map ps => some (rstripNl (yaml_dump (.map ps)))
  | .seq xs => some (rstripNl (yaml_dump (.seq xs)))
  | v => some (pyStr v)

/-- `extract_value_as_yaml(path, data)` from `yaml_helpers.py`: split the
path on dots, traverse, then render (`none` = Python's `None` result). -/
def extract_value_as_yaml (path : String) (data : Yaml) : Option String :=
  match resolveParts (splitDots path) data with
  | none => none
  | some cur => renderResolved cur

/-! ## yaml_helpers.py: the extract subcommand -/

/-- Observable outcome of one run of the extract subcommand: the process
exit status and everything printed on stdout and stderr (each `print(x)`
appends `x` plus a newline to its channel). -/
structure CmdResult where
  exitCode : Nat
  stdout : String
  stderr : String
deriving DecidableEq, Repr

/-- How far `open` + `yaml.safe_load` got before the `try` body's first
use of `data`: the file was unreadable (`FileNotFoundError`), the source
was malformed (`yaml.YAMLError` with message `msg`), some other exception
escaped (`Exception` with message `msg`), or a document was produced
(an empty source yields Python `None`, i.e. `Yaml.null`). -/
inductive ParseOutcome where
  | fileNotFound
  | yamlError (msg : String)
  | unexpected (msg : String)
  | ok (data : Yaml)

/-- `_handle_error(error_msg, default_value)` from `yaml_helpers.py`. -/
def handle_error (errorMsg : String) (defaultValue : Option String) : CmdResult :=
  match defaultValue with
  | some d => ⟨0, d ++ "\n", ""⟩
  | none => ⟨1, "", "yaml_helpers: " ++ errorMsg ++ "\n"⟩

/-- `extract_command(args)` from `yaml_helpers.py`, as a function of the
parse outcome for the named file, the key path, the file path (used only
in the file-not-found message) and the optional `--default` value.
Falling off the end of the function is exit status 0. -/
def extract_command (parsed : ParseOutcome) (path filePath : String)
    (defaultValue : Option String) : CmdResult :=
  match parsed with
  | .ok .null =>
    match defaultValue with
    | some d => ⟨0, d ++ "\n", ""⟩
    | none => ⟨0, "", ""⟩
  | .ok data =>
    match extract_value_as_yaml path data with
    | none =>
      match defaultValue with
      | some d => ⟨0, d ++ "\n", ""⟩
      | none => ⟨0, "", ""⟩
    | some r => ⟨0, r ++ "\n", ""⟩
  | .fileNotFound => handle_error ("File not found: " ++ filePath) defaultValue
  | .yamlError e => handle_error ("YAML error: " ++ e) defaultValue
  | .unexpected e => handle_error ("Unexpected error: " ++ e) defaultValue

/-! ## yaml-to-json.py: the streaming converter -/

/-- Hex digit character (lowercase), for JSON `\uXXXX` escapes. -/
def hexDigit (n : Nat) : Char := if n < 10 then digitChar n else Char.ofNat (87 + n)

/-- Four hex digits of a code unit below `0x10000`. -/
def hex4 (n : Nat) : List Char :=
  [hexDigit (n / 4096 % 16), hexDigit (n / 256 % 16), hexDigit (n / 16 % 16), hexDigit (n % 16)]

/-- Models the escaping of one character by `json.dumps` (default
`ensure_ascii=True`): two-character escapes for the usual controls,
`\uXXXX` for other characters outside printable ASCII, surrogate pairs
beyond the basic plane. -/
def jsonEscapeChar (c : Char) : List Char :=
  if c == '"' then ['\\', '"']
  else if c == '\\' then ['\\', '\\']
  else if c == '\n' then ['\\', 'n']
  else if c == '\t' then ['\\', 't']
  else if c == '\r' then ['\\', 'r']
  else if c == Char.ofNat 8 then ['\\', 'b']
  else if c == Char.ofNat 12 then ['\\', 'f']
  else if 32 ≤ c.toNat && c.toNat ≤ 126 then [c]
  else if c.toNat < 65536 then '\\' :: 'u' :: hex4 c.toNat
  else
    '\\' :: 'u' :: hex4 (55296 + (c.toNat - 65536) / 1024)
      ++ '\\' :: 'u' :: hex4 (56320 + (c.toNat - 65536) % 1024)

/-- A JSON string literal for `s`, per `json.dumps`. -/
def jsonStrQ (s : String) : String := ⟨'"' :: s.data.flatMap jsonEscapeChar ++ ['"']⟩

/-- Join pieces with a separator (`sep.join(pieces)`). -/
def joinSep (sep : String) : List String → String
  | [] => ""
  | [x] => x
  | x :: xs => x ++ sep ++ joinSep sep xs

/-- Models `json.dumps(value)` with its default separators `", "` and
`": "` and default `sort_keys=False` (dict order preserved).  The fuel
argument only bounds the recursion depth; `jsonDumps` supplies `ysize`. -/
def jsonDumpsF : Nat → Yaml → String
  | _, .null => "null"
  | _, .bool true => "true"
  | _, .bool false => "false"
  | _, .int n => intRepr n
  | _, .str s => jsonStrQ s
  | f+1, .seq xs => "[" ++ joinSep ", " (xs.map (jsonDumpsF f)) ++ "]"
  | f+1, .map ps => "\x7b" ++ joinSep ", " (ps.map (fun p => jsonStrQ p.1 ++ ": " ++ jsonDumpsF f p.2)) ++ "\x7d"
  | 0, _ => ""

/-- Models `json.dumps(value)` on a parsed document. -/
def jsonDumps (v : Yaml) : String := jsonDumpsF (ysize v) v

/-- One step of `yaml.safe_load_all(sys.stdin)` as consumed by the loop in
`yaml-to-json.py`: the generator yields a JSON-serializable document,
yields a document on which `json.dumps` raises (`TypeError`/`ValueError`,
e.g. a YAML timestamp), raises a `yaml.YAMLError` while parsing, or raises
some other exception. -/
inductive YtjEvent where
  | doc (d : Yaml)
  | badDoc (msg : String)
  | parseError (msg : String)
  | otherError (msg : String)

/-- The module body of `yaml-to-json.py` as a function of the event
stream: the pair is (stdout, stderr).  The `try` block wraps the whole
`for` loop, so the first raising event ends the loop; the matching
`except` prints one diagnostic and the program ends. -/
def yamlToJson : List YtjEvent → String × String
  | [] => ("", "")
  | .doc d :: rest =>
    let r := yamlToJson rest
    (jsonDumps d ++ "\n" ++ r.1, r.2)
  | .parseError m :: _ => ("", "yaml-to-json: YAML error: " ++ m ++ "\n")
  | .badDoc m :: _ => ("", "yaml-to-json: JSON conversion error: " ++ m ++ "\n")
  | .otherError m :: _ => ("", "yaml-to-json: Unexpected error: " ++ m ++ "\n")

/-! ## filter_e2e_output.py: the JUnit XML filter -/

/-- An ElementTree element: tag, attribute list (insertion ordered, unique
names), and child elements.  Text content plays no part in the filter. -/
inductive XmlElem where
  | mk (tag : String) (attrs : List (String × String)) (children : List XmlElem)

/-- The element's tag. -/
def XmlElem.tag : XmlElem → String
  | .mk t _ _ => t

/-- The element's attribute list. -/
def XmlElem.attrs : XmlElem → List (String × String)
  | .mk _ a _ => a

/-- The element's direct children. -/
def XmlElem.children : XmlElem → List XmlElem
  | .mk _ _ cs => cs

mutual

/-- Structural equality test on elements (tag, attributes, children). -/
def beqElem : XmlElem → XmlElem → Bool
  | .mk t a cs, .mk t' a' cs' => t == t' && a == a' && beqElems cs cs'

/-- Structural equality test on child lists. -/
def beqElems : List XmlElem → List XmlElem → Bool
  | [], [] => true
  | x :: xs, y :: ys => beqElem x y && beqElems xs ys
  | _, _ => false

end

/-- Models `elem.get(name, default)`: first attribute with that name. -/
def lookupAttr (n : String) : List (String × String) → Option String
  | [] => none
  | (k, v) :: rest => if k = n then some v else lookupAttr n rest

/-- Models `elem.get(name, default)` on an element. -/
def getAttr (e : XmlElem) (n dflt : String) : String := (lookupAttr n e.attrs).getD dflt

/-- Models `elem.set(name, value)`: update the attribute in place if
present (attribute names are unique), else append it. -/
def setAttr : List (String × String) → String → String → List (String × String)
  | [], n, v => [(n, v)]
  | (k, w) :: rest, n, v => if k = n then (k, v) :: rest else (k, w) :: setAttr rest n v

/-- Python whitespace stripped by `int(str)`. -/
def isPySpace (c : Char) : Bool :=
  c == ' ' || c == '\t' || c == '\n' || c == '\r' || c == Char.ofNat 11 || c == Char.ofNat 12

/-- Value of a nonempty digit string. -/
def digitsToNat (l : List Char) : Nat := l.foldl (fun acc c => 10 * acc + (c.toNat - 48)) 0

/-- Models Python's `int(str)` for the decimal strings appearing in JUnit
`tests` attributes: optional surrounding whitespace, optional single sign,
then decimal digits; `none` models the `ValueError` (digit-group
underscores and non-ASCII digits are not exercised here). -/
def pyIntParse (s : String) : Option Int :=
  let t := ((s.data.dropWhile isPySpace).reverse.dropWhile isPySpace).reverse
  match t with
  | [] => none
  | c :: rest =>
    if c == '-' then
      if !rest.isEmpty && rest.all Char.isDigit then some (-(digitsToNat rest : Int)) else none
    else if c == '+' then
      if !rest.isEmpty && rest.all Char.isDigit then some (digitsToNat rest) else none
    else if (c :: rest).all Char.isDigit then some (digitsToNat (c :: rest)) else none

/-- Models `any(keyword in name for keyword in name_substrings)`. -/
def nameMatches (subs : List String) (name : String) : Bool :=
  subs.any (fun kw => infixOfB kw.data name.data)

/-- The selection made by the inner loop of `filter_junit_xml`: a direct
child found by `findall('testcase')` whose `name` attribute (default
`''`) contains one of the substrings. -/
def isRemoved (subs : List String) (c : XmlElem) : Bool :=
  c.tag == "testcase" && nameMatches subs (getAttr c "name" "")

/-- Models `testsuite.remove(testcase)`: drop the first matching child.
ElementTree removes by object identity; the removed objects are the
collected children themselves, so dropping the first structural match
removes the same children overall. -/
def eraseFirst : List XmlElem → XmlElem → List XmlElem
  | [], _ => []
  | c :: cs, x => if beqElem c x then cs else c :: eraseFirst cs x

/-- The per-testsuite body of `filter_junit_xml`: collect the matching
direct-child testcases, remove each of them, and rewrite the `tests`
attribute to its integer value minus the number removed.  `none` models
`int(...)` raising `ValueError`, which the catch-all turns into an aborted
run with no output file. -/
def filterSuite (subs : List String) (ts : XmlElem) : Option XmlElem :=
  let toRemove := ts.children.filter (isRemoved subs)
  let newChildren := toRemove.foldl eraseFirst ts.children
  match pyIntParse (getAttr ts "tests" "0") with
  | none => none
  | some n =>
    some (.mk ts.tag (setAttr ts.attrs "tests" (intRepr (n - toRemove.length))) newChildren)

/-- Apply a fallible rewrite to every element of a list, failing if any
single rewrite fails. -/
def mapOption (f : XmlElem → Option XmlElem) : List XmlElem → Option (List XmlElem)
  | [] => some []
  | c :: cs =>
    match f c, mapOption f cs with
    | some c2, some cs2 => some (c2 :: cs2)
    | _, _ => none

/-- `filter_junit_xml` on the parsed tree: the loop over
`root.findall('testsuite')` rewrites each direct child whose tag is
`testsuite` and leaves every other child alone; the rewritten tree is what
`tree.write` serializes.  A failing rewrite (a bad `tests` attribute)
aborts the whole run. -/
def filterRoot (subs : List String) (root : XmlElem) : Option XmlElem :=
  (mapOption (fun c => if c.tag = "testsuite" then filterSuite subs c else some c)
      root.children).map
    (fun cs => .mk root.tag root.attrs cs)

/-- Restatement of the claimed per-testsuite effect in one pass (the
specification form): keep exactly the non-matching children in order and
decrement `tests` by the number of matching direct-child testcases. -/
def filterSuiteSpec (subs : List String) (ts : XmlElem) : XmlElem :=
  .mk ts.tag
    (setAttr ts.attrs "tests"
      (intRepr ((pyIntParse (getAttr ts "tests" "0")).getD 0
        - (ts.children.filter (isRemoved subs)).length)))
    (ts.children.filter (fun c => !(isRemoved subs c)))

/-! ## Remaining definitions used by the statements -/

/-- The string is nonempty and its last character is not a newline. -/
def endsNonNl (s : String) : Prop := ∃ l c, s.data = l ++ [c] ∧ c ≠ '\n'

instance : IsTotal (String × Yaml) keyLe :=
  ⟨by
    have key : ∀ l m : List Char, charListLe l m = true ∨ charListLe m l = true := by
      intro l
      induction l with
      | nil => intro m; left; rfl
      | cons c cs ih =>
        intro m
        cases m with
        | nil => right; rfl
        | cons d ds =>
          rcases lt_trichotomy c d with h | h | h
          · left; simp [charListLe, h]
          · subst h
            rcases ih ds with h' | h'
            · left; simp [charListLe, h']
            · right; simp [charListLe, h']
          · right; simp [charListLe, h]
    intro a b
    exact key a.1.data b.1.data⟩

instance : IsTrans (String × Yaml) keyLe :=
  ⟨by
    have key : ∀ l m n : List Char, charListLe l m = true → charListLe m n = true →
        charListLe l n = true := by
      intro l
      induction l with
      | nil => intro m n _ _; rfl
      | cons c cs ih =>
        intro m n h1 h2
        cases m with
        | nil => simp [charListLe] at h1
        | cons d ds =>
          cases n with
          | nil => simp [charListLe] at h2
          | cons e es =>
            simp only [charListLe, Bool.or_eq_true, Bool.and_eq_true, beq_iff_eq,
              decide_eq_true_eq] at h1 h2 ⊢
            rcases h1 with h1 | ⟨rfl, h1⟩
            · rcases h2 with h2 | ⟨rfl, h2⟩
              · exact Or.inl (lt_trans h1 h2)
              · exact Or.inl h1
            · rcases h2 with h2 | ⟨rfl, h2⟩
              · exact Or.inl h2
              · exact Or.inr ⟨rfl, ih ds es h1 h2⟩
    intro a b c h1 h2
    exact key a.1.data b.1.data c.1.data h1 h2⟩

/-! ## Helper lemmas -/

theorem stringMk_data (s : String) : String.mk s.data = s := by
  rcases s with ⟨l⟩
  rfl

theorem rstripNl_eq_self {s : String} (h : endsNonNl s) : rstripNl s = s := by
  obtain ⟨l, c, hd, hc⟩ := h
  unfold rstripNl
  rw [hd, List.reverse_append]
  simp only [List.reverse_cons, List.reverse_nil, List.nil_append, List.singleton_append,
    List.dropWhile_cons]
  have : (c == '\n') = false := by simpa using hc
  rw [this]
  simp only [Bool.false_eq_true, if_false, List.reverse_cons, List.reverse_reverse]
  rw [← hd, stringMk_data]

theorem rstripNl_append_newline (s : String) : rstripNl (s ++ "\n") = rstripNl s := by
  unfold rstripNl
  have hd : (s ++ "\n").data = s.data ++ ['\n'] := by
    rw [String.data_append]
  rw [hd, List.reverse_append]
  simp [List.dropWhile_cons]

theorem endsNonNl_append (s t : String) (h : endsNonNl t) : endsNonNl (s ++ t) := by
  obtain ⟨l, c, hd, hc⟩ := h
  exact ⟨s.data ++ l, c, by rw [String.data_append, hd, List.append_assoc], hc⟩

theorem joinLines_endsNonNl : ∀ ls : List String,
    (∀ x ∈ ls, endsNonNl x) → ls ≠ [] → endsNonNl (joinLines ls) := by
  intro ls
  induction ls with
  | nil => intro _ h; exact absurd rfl h
  | cons l ls ih =>
    intro hall _
    cases ls with
    | nil => simpa [joinLines] using hall l (by simp)
    | cons l2 ls2 =>
      have hj : joinLines (l :: l2 :: ls2) = l ++ "\n" ++ joinLines (l2 :: ls2) := rfl
      rw [hj]
      exact endsNonNl_append _ _ (ih (fun x hx => hall x (List.mem_cons_of_mem _ hx)) (by simp))

theorem digitChar_ne_nl {n : Nat} (h : n < 10) : digitChar n ≠ '\n' := by
  interval_cases n <;> decide

theorem natReprAux_ne_nl : ∀ fuel n, ∀ c ∈ natReprAux fuel n, c ≠ '\n' := by
  intro fuel
  induction fuel with
  | zero => intro n c hc; simp [natReprAux] at hc
  | succ f ih =>
    intro n c hc
    by_cases h : n < 10
    · simp only [natReprAux, if_pos h, List.mem_singleton] at hc
      exact hc ▸ digitChar_ne_nl h
    · simp only [natReprAux, if_neg h, List.mem_append, List.mem_singleton] at hc
      rcases hc with hc | hc
      · exact ih (n / 10) c hc
      · exact hc ▸ digitChar_ne_nl (Nat.mod_lt n (by norm_num))

theorem natReprAux_ne_nil (f n : Nat) : natReprAux (f + 1) n ≠ [] := by
  by_cases h : n < 10 <;> simp [natReprAux, h]

theorem endsNonNl_natRepr (n : Nat) : endsNonNl (natRepr n) := by
  have h1 : natReprAux (n + 1) n ≠ [] := natReprAux_ne_nil n n
  refine ⟨(natReprAux (n + 1) n).dropLast, (natReprAux (n + 1) n).getLast h1, ?_, ?_⟩
  · exact (List.dropLast_append_getLast h1).symm
  · exact natReprAux_ne_nl (n + 1) n _ (List.getLast_mem h1)

theorem endsNonNl_intRepr (i : Int) : endsNonNl (intRepr i) := by
  unfold intRepr
  split
  · exact endsNonNl_append _ _ (endsNonNl_natRepr _)
  · exact endsNonNl_natRepr _

theorem flatMap_singleton_eq_map {α β : Type} (l : List α) (f : α → List β) (g : α → β)
    (h : ∀ x ∈ l, f x = [g x]) : l.flatMap f = l.map g := by
  induction l with
  | nil => rfl
  | cons x xs ih =>
    simp only [List.flatMap_cons, List.map_cons, h x (by simp)]
    rw [ih (fun y hy => h y (List.mem_cons_of_mem _ hy))]
    rfl

theorem mem_sortPairs {ps : List (String × Yaml)} {p : String × Yaml} :
    p ∈ sortPairs ps ↔ p ∈ ps :=
  (List.perm_insertionSort keyLe ps).mem_iff

theorem sortPairs_ne_nil {ps : List (String × Yaml)} (h : ps ≠ []) : sortPairs ps ≠ [] := by
  intro hc
  have hlen := (List.perm_insertionSort keyLe ps).length_eq
  unfold sortPairs at hc
  rw [hc] at hlen
  exact h (List.eq_nil_of_length_eq_zero hlen.symm)

theorem blockLinesF_scalar_map (f : Nat) (ps : List (String × Yaml))
    (h : ∀ p ∈ ps, p.2.isScalarB = true) :
    blockLinesF (f + 1) (.map ps)
      = (sortPairs ps).map (fun p => strRepr p.1 ++ ": " ++ scalarRepr p.2) := by
  show (sortPairs ps).flatMap _ = _
  apply flatMap_singleton_eq_map
  intro p hp
  have hsc : p.2.isScalarB = true := h p (mem_sortPairs.mp hp)
  cases hv : p.2 <;> simp_all [Yaml.isScalarB]

theorem yaml_dump_scalar_map (m : List (String × Yaml)) (hne : m ≠ [])
    (hsc : ∀ p ∈ m, p.2.isScalarB = true) :
    yaml_dump (.map m)
      = joinLines ((sortPairs m).map (fun p => strRepr p.1 ++ ": " ++ scalarRepr p.2)) ++ "\n" := by
  obtain ⟨q, qs, rfl⟩ := List.exists_cons_of_ne_nil hne
  show joinLines (blockLinesF (ysize (.map (q :: qs))) (.map (q :: qs))) ++ "\n" = _
  have hy : ysize (.map (q :: qs)) = (ysizePairs (q :: qs)) + 1 := by
    simp [ysize, Nat.add_comm]
  rw [hy, blockLinesF_scalar_map _ _ hsc]

theorem resolveParts_filter_empty :
    ∀ (parts : List String) (data : Yaml),
      resolveParts parts data = resolveParts (parts.filter (fun p => !(p == ""))) data := by
  intro parts
  induction parts with
  | nil => intro data; rfl
  | cons p rest ih =>
    intro data
    by_cases hp : p = ""
    · subst hp
      simpa [resolveParts] using ih data
    · have hfilter : (p :: rest).filter (fun q => !(q == "")) =
          p :: rest.filter (fun q => !(q == "")) := by
        simp [hp]
      rw [hfilter]
      cases data with
      | map pairs =>
        simp only [resolveParts, if_neg hp]
        cases h : lookupStr p pairs with
        | none => rfl
        | some v => exact ih v
      | null => simp [resolveParts, hp]
      | bool b => simp [resolveParts, hp]
      | int n => simp [resolveParts, hp]
      | str s => simp [resolveParts, hp]
      | seq xs => simp [resolveParts, hp]

theorem resolveParts_all_empty :
    ∀ (parts : List String) (data : Yaml), (∀ p ∈ parts, p = "") →
      resolveParts parts data = some data := by
  intro parts
  induction parts with
  | nil => intro data _; rfl
  | cons p rest ih =>
    intro data hall
    have hp : p = "" := hall p (by simp)
    subst hp
    simpa [resolveParts] using ih data (fun q hq => hall q (List.mem_cons_of_mem _ hq))

/-! ## Small unfolding facts -/

/-- One step of the converter loop on a successfully converted document. -/
theorem yamlToJson_doc_cons (d : Yaml) (rest : List YtjEvent) :
    yamlToJson (.doc d :: rest)
      = (jsonDumps d ++ "\n" ++ (yamlToJson rest).1, (yamlToJson rest).2) := rfl

/-! ## Claim C1: streaming converter error behaviour -/

/-- C1 counterexample: in the stream (document `1`, parse error, document
`2`), the claim says document `2` is still converted and emitted; in fact
stdout is exactly `"1\n"`, and the conversion `"2"` of the later document
appears nowhere in it — the error aborts the stream. -/
theorem c1_counterexample :
    (yamlToJson [.doc (.int 1), .parseError "boom", .doc (.int 2)]).1 = "1\n"
    ∧ jsonDumps (.int 2) = "2"
    ∧ infixOfB (jsonDumps (.int 2)).data ("1\n").data = false :=
  ⟨rfl, rfl, rfl⟩

/-- C1 amended: a parse or conversion error in one document aborts the
rest of the stream: the documents before the first raising event are
converted and emitted in order, the error is reported once on the
diagnostic channel, and everything after the raising event is ignored. -/
theorem c1_amended :
    (∀ (docs : List Yaml) (msg : String) (rest : List YtjEvent),
      yamlToJson (docs.map YtjEvent.doc ++ YtjEvent.parseError msg :: rest)
        = (concatAll (docs.map (fun d => jsonDumps d ++ "\n")),
           "yaml-to-json: YAML error: " ++ msg ++ "\n"))
    ∧ (∀ (docs : List Yaml) (msg : String) (rest : List YtjEvent),
      yamlToJson (docs.map YtjEvent.doc ++ YtjEvent.badDoc msg :: rest)
        = (concatAll (docs.map (fun d => jsonDumps d ++ "\n")),
           "yaml-to-json: JSON conversion error: " ++ msg ++ "\n")) := by
  constructor
  all_goals
    intro docs msg rest
    induction docs with
    | nil => rfl
    | cons d ds ih =>
      rw [List.map_cons, List.cons_append, yamlToJson_doc_cons, ih]
      rfl

/-! ## Claim C2: composite rendering order -/

/-- C2 counterexample: for the document `{a: {c: 1, b: 2}}` and path `a`,
the claim says keys are rendered in document order (`c` before `b`); the
code renders `"b: 2\nc: 1"` (sorted order), which differs from the
document-order rendering `"c: 1\nb: 2"`. -/
theorem c2_counterexample :
    extract_value_as_yaml "a" (.map [("a", .map [("c", .int 1), ("b", .int 2)])])
      = some "b: 2\nc: 1"
    ∧ "b: 2\nc: 1" ≠ "c: 1\nb: 2" :=
  ⟨rfl, by decide⟩

/-- C2 amended: the rendered block serialization lists mapping keys in
sorted key order (the serializer sorts keys; document order is kept only
for sequence items), uses block style, and has its trailing newline
stripped.  Shown in general for mappings of integer scalars under
plain-style keys, and byte-exactly on the spec's own example. -/
theorem c2_amended :
    (∀ (m : List (String × Yaml)), m ≠ [] →
      (∀ p ∈ m, plainOk p.1 = true ∧ ∃ n : Int, p.2 = Yaml.int n) →
      extract_value_as_yaml "" (Yaml.map m)
        = some (joinLines ((sortPairs m).map (fun p => p.1 ++ ": " ++ scalarRepr p.2)))
      ∧ List.Sorted keyLe (sortPairs m))
    ∧ extract_value_as_yaml "a"
        (.map [("a", .map [("b", .int 1), ("c", .seq [.int 2, .int 3])])])
        = some "b: 1\nc:\n- 2\n- 3" := by
  constructor
  · intro m hne hall
    constructor
    · have hsc : ∀ p ∈ m, p.2.isScalarB = true := by
        intro p hp
        obtain ⟨-, n, hn⟩ := hall p hp
        rw [hn]
        rfl
      have hres : resolveParts (splitDots "") (Yaml.map m) = some (Yaml.map m) := by
        show resolveParts [""] _ = _
        simp [resolveParts]
      unfold extract_value_as_yaml
      rw [hres]
      show renderResolved (Yaml.map m) = _
      have hrr : renderResolved (Yaml.map m) = some (rstripNl (yaml_dump (.map m))) := rfl
      rw [hrr, yaml_dump_scalar_map m hne hsc, rstripNl_append_newline]
      have hlineOk : ∀ x ∈ (sortPairs m).map (fun p => strRepr p.1 ++ ": " ++ scalarRepr p.2),
          endsNonNl x := by
        intro x hx
        obtain ⟨p, hp, rfl⟩ := List.mem_map.mp hx
        obtain ⟨-, n, hn⟩ := hall p (mem_sortPairs.mp hp)
        rw [hn]
        exact endsNonNl_append _ _ (endsNonNl_intRepr n)
      have hnil : (sortPairs m).map (fun p => strRepr p.1 ++ ": " ++ scalarRepr p.2) ≠ [] := by
        simpa using sortPairs_ne_nil hne
      rw [rstripNl_eq_self (joinLines_endsNonNl _ hlineOk hnil)]
      have hmapeq : (sortPairs m).map (fun p => strRepr p.1 ++ ": " ++ scalarRepr p.2)
          = (sortPairs m).map (fun p => p.1 ++ ": " ++ scalarRepr p.2) := by
        apply List.map_congr_left
        intro p hp
        obtain ⟨hplain, -⟩ := hall p (mem_sortPairs.mp hp)
        rw [strRepr, if_pos hplain]
      rw [hmapeq]
    · exact List.sorted_insertionSort keyLe m
  · rfl

/-- C2 witness: the amended theorem applied to the two-entry mapping
`{b: 5, a: 2}`, whose sorted rendering is `"a: 2\nb: 5"`. -/
theorem c2_amended_witness :
    extract_value_as_yaml "" (Yaml.map [("b", Yaml.int 5), ("a", Yaml.int 2)])
      = some (joinLines ((sortPairs [("b", Yaml.int 5), ("a", Yaml.int 2)]).map
          (fun p => p.1 ++ ": " ++ scalarRepr p.2)))
    ∧ List.Sorted keyLe (sortPairs [("b", Yaml.int 5), ("a", Yaml.int 2)])
    ∧ joinLines ((sortPairs [("b", Yaml.int 5), ("a", Yaml.int 2)]).map
        (fun p => p.1 ++ ": " ++ scalarRepr p.2)) = "a: 2\nb: 5" := by
  have h := c2_amended.1 [("b", Yaml.int 5), ("a", Yaml.int 2)] (by simp)
    (by
      intro p hp
      simp only [List.mem_cons, List.not_mem_nil, or_false] at hp
      rcases hp with rfl | rfl
      · exact ⟨by decide, 5, rfl⟩
      · exact ⟨by decide, 2, rfl⟩)
  exact ⟨h.1, h.2, rfl⟩

/-! ## Claim C3: default fallback uniformity -/

/-- C3: with `--default X`, every failure class — unreadable file,
malformed source, unexpected internal error, and path-not-found — exits
with status 0 and prints exactly `X` (one `print` call, so `X` plus a
newline) on stdout, with nothing on stderr; the outcome is the same tuple
in all four cases. -/
theorem c3_default_fallback (d path filePath m1 m2 : String) (data : Yaml)
    (hnf : extract_value_as_yaml path data = none) :
    extract_command .fileNotFound path filePath (some d) = ⟨0, d ++ "\n", ""⟩
    ∧ extract_command (.yamlError m1) path filePath (some d) = ⟨0, d ++ "\n", ""⟩
    ∧ extract_command (.unexpected m2) path filePath (some d) = ⟨0, d ++ "\n", ""⟩
    ∧ extract_command (.ok data) path filePath (some d) = ⟨0, d ++ "\n", ""⟩ := by
  refine ⟨rfl, rfl, rfl, ?_⟩
  cases data <;> simp_all [extract_command]

/-- C3 witness: the path `b` is absent from `{a: 1}`; all four failure
classes with default `X` produce exit 0 and stdout `X` plus newline. -/
theorem c3_witness :
    extract_value_as_yaml "b" (Yaml.map [("a", Yaml.int 1)]) = none
    ∧ extract_command .fileNotFound "b" "f.yaml" (some "X") = ⟨0, "X\n", ""⟩
    ∧ extract_command (.yamlError "m") "b" "f.yaml" (some "X") = ⟨0, "X\n", ""⟩
    ∧ extract_command (.unexpected "m") "b" "f.yaml" (some "X") = ⟨0, "X\n", ""⟩
    ∧ extract_command (.ok (Yaml.map [("a", Yaml.int 1)])) "b" "f.yaml" (some "X")
        = ⟨0, "X\n", ""⟩ := by
  have h := c3_default_fallback "X" "b" "f.yaml" "m" "m" (Yaml.map [("a", Yaml.int 1)]) rfl
  exact ⟨rfl, h.1, h.2.1, h.2.2.1, h.2.2.2⟩

/-! ## Claim C4: failure signalling without a default -/

/-- C4: with no default, the unreadable-source, malformed-source and
unexpected-error classes exit with status 1, write one diagnostic (a
single `print` of the prefixed message) to stderr and nothing to stdout,
while a plain not-found path exits with status 0 and writes nothing to
either channel. -/
theorem c4_no_default (path filePath m1 m2 : String) (data : Yaml)
    (hnf : extract_value_as_yaml path data = none) :
    extract_command .fileNotFound path filePath none
      = ⟨1, "", "yaml_helpers: " ++ ("File not found: " ++ filePath) ++ "\n"⟩
    ∧ extract_command (.yamlError m1) path filePath none
      = ⟨1, "", "yaml_helpers: " ++ ("YAML error: " ++ m1) ++ "\n"⟩
    ∧ extract_command (.unexpected m2) path filePath none
      = ⟨1, "", "yaml_helpers: " ++ ("Unexpected error: " ++ m2) ++ "\n"⟩
    ∧ extract_command (.ok data) path filePath none = ⟨0, "", ""⟩ := by
  refine ⟨rfl, rfl, rfl, ?_⟩
  cases data <;> simp_all [extract_command]

/-- C4 witness: the path `b` is absent from `{a: 1}`; without a default
the three error classes exit 1 with one diagnostic on stderr only, and the
not-found case exits 0 silently. -/
theorem c4_witness :
    extract_value_as_yaml "b" (Yaml.map [("a", Yaml.int 1)]) = none
    ∧ extract_command .fileNotFound "b" "f.yaml" none
        = ⟨1, "", "yaml_helpers: File not found: f.yaml\n"⟩
    ∧ extract_command (.yamlError "bad") "b" "f.yaml" none
        = ⟨1, "", "yaml_helpers: YAML error: bad\n"⟩
    ∧ extract_command (.unexpected "oops") "b" "f.yaml" none
        = ⟨1, "", "yaml_helpers: Unexpected error: oops\n"⟩
    ∧ extract_command (.ok (Yaml.map [("a", Yaml.int 1)])) "b" "f.yaml" none
        = ⟨0, "", ""⟩ := by
  have h := c4_no_default "b" "f.yaml" "bad" "oops" (Yaml.map [("a", Yaml.int 1)]) rfl
  exact ⟨rfl, h.1, h.2.1, h.2.2.1, h.2.2.2⟩

/-! ## Claim C5: null versus not-found at the CLI boundary -/

/-- C5: a path resolving to an explicit `null` and a path that is not
found produce identical observable behaviour with no default: both exit 0
with empty stdout and empty stderr. -/
theorem c5_null_vs_notfound (data : Yaml) (p1 p2 filePath : String)
    (h1 : resolveParts (splitDots p1) data = some Yaml.null)
    (h2 : resolveParts (splitDots p2) data = none) :
    extract_command (.ok data) p1 filePath none = extract_command (.ok data) p2 filePath none
    ∧ extract_command (.ok data) p1 filePath none = ⟨0, "", ""⟩ := by
  have e1 : extract_value_as_yaml p1 data = none := by
    unfold extract_value_as_yaml
    rw [h1]
    rfl
  have e2 : extract_value_as_yaml p2 data = none := by
    unfold extract_value_as_yaml
    rw [h2]
  cases data <;> simp_all [extract_command]

/-- C5 witness: for the document `{a: null}`, path `a` (explicit null) and
path `b` (absent key) are indistinguishable: exit 0, no output, no
diagnostic. -/
theorem c5_witness :
    resolveParts (splitDots "a") (Yaml.map [("a", Yaml.null)]) = some Yaml.null
    ∧ resolveParts (splitDots "b") (Yaml.map [("a", Yaml.null)]) = none
    ∧ extract_command (.ok (Yaml.map [("a", Yaml.null)])) "a" "f.yaml" none
        = extract_command (.ok (Yaml.map [("a", Yaml.null)])) "b" "f.yaml" none
    ∧ extract_command (.ok (Yaml.map [("a", Yaml.null)])) "a" "f.yaml" none = ⟨0, "", ""⟩ := by
  have h := c5_null_vs_notfound (Yaml.map [("a", Yaml.null)]) "a" "b" "f.yaml" rfl rfl
  exact ⟨rfl, rfl, h.1, h.2⟩

/-! ## Claim C6: non-mapping short-circuit -/

/-- C6: applying a (non-empty) path segment to a non-mapping value, or to
a mapping that lacks the key, makes resolution terminate with not-found
(`none`); the traversal is a total function, so no structural or type
error can be raised.  In particular `a.0` over `{a: [1,2,3]}` is
not-found: sequences are never indexed. -/
theorem c6_nonmap_shortcircuit :
    (∀ (s : String) (rest : List String) (v : Yaml),
      s ≠ "" → v.isMap = false → resolveParts (s :: rest) v = none)
    ∧ (∀ (s : String) (rest : List String) (pairs : List (String × Yaml)),
      s ≠ "" → lookupStr s pairs = none → resolveParts (s :: rest) (.map pairs) = none)
    ∧ extract_value_as_yaml "a.0" (.map [("a", .seq [.int 1, .int 2, .int 3])]) = none := by
  refine ⟨?_, ?_, rfl⟩
  · intro s rest v hs hv
    cases v <;> simp_all [resolveParts, Yaml.isMap]
  · intro s rest pairs hs hl
    simp [resolveParts, hs, hl]

/-- C6 witness: one non-empty segment applied to a sequence resolves to
not-found. -/
theorem c6_witness :
    ("a" : String) ≠ "" ∧ (Yaml.seq [Yaml.int 1]).isMap = false
    ∧ resolveParts ["a"] (Yaml.seq [Yaml.int 1]) = none :=
  ⟨by decide, rfl, c6_nonmap_shortcircuit.1 "a" [] _ (by decide) rfl⟩

/-! ## Claim C7: empty-segment invariance -/

/-- C7: resolution depends only on the non-empty path segments, so paths
that differ only by leading, trailing or doubled dots resolve identically;
in particular `a..b`, `.a.b` and `a.b.` each resolve like `a.b` on every
document. -/
theorem c7_empty_segment_invariance :
    (∀ (p1 p2 : String) (data : Yaml),
      (splitDots p1).filter (fun q => !(q == ""))
        = (splitDots p2).filter (fun q => !(q == "")) →
      extract_value_as_yaml p1 data = extract_value_as_yaml p2 data)
    ∧ (∀ data : Yaml,
      extract_value_as_yaml "a..b" data = extract_value_as_yaml "a.b" data
      ∧ extract_value_as_yaml ".a.b" data = extract_value_as_yaml "a.b" data
      ∧ extract_value_as_yaml "a.b." data = extract_value_as_yaml "a.b" data) := by
  have key : ∀ (p1 p2 : String) (data : Yaml),
      (splitDots p1).filter (fun q => !(q == ""))
        = (splitDots p2).filter (fun q => !(q == "")) →
      extract_value_as_yaml p1 data = extract_value_as_yaml p2 data := by
    intro p1 p2 data h
    unfold extract_value_as_yaml
    rw [resolveParts_filter_empty (splitDots p1), resolveParts_filter_empty (splitDots p2), h]
  exact ⟨key, fun data =>
    ⟨key "a..b" "a.b" data (by decide), key ".a.b" "a.b" data (by decide),
     key "a.b." "a.b" data (by decide)⟩⟩

/-- C7 witness: the invariance theorem applied to `x..y` versus `x.y` on a
concrete document. -/
theorem c7_witness :
    (splitDots "x..y").filter (fun q => !(q == ""))
      = (splitDots "x.y").filter (fun q => !(q == ""))
    ∧ extract_value_as_yaml "x..y" (Yaml.map [("x", Yaml.map [("y", Yaml.int 3)])])
        = extract_value_as_yaml "x.y" (Yaml.map [("x", Yaml.map [("y", Yaml.int 3)])]) :=
  ⟨by decide, c7_empty_segment_invariance.1 "x..y" "x.y" _ (by decide)⟩

/-! ## Claim C8: scalar rendering -/

/-- C8: when the resolved value is a non-null scalar (string, number or
boolean), the rendered output is its plain `str()` text, with no quoting
and no type tags; for `{a: {b: 42}}` and path `a.b` the output is exactly
`"42"`. -/
theorem c8_scalar_rendering :
    (∀ (path : String) (data v : Yaml),
      resolveParts (splitDots path) data = some v →
      v.isScalarB = true → v ≠ Yaml.null →
      extract_value_as_yaml path data = some (pyStr v))
    ∧ extract_value_as_yaml "a.b" (.map [("a", .map [("b", .int 42)])]) = some "42" := by
  refine ⟨?_, rfl⟩
  intro path data v hres hsc hnn
  unfold extract_value_as_yaml
  rw [hres]
  cases v <;> simp_all [renderResolved, Yaml.isScalarB]

/-- C8 witness: the scalar-rendering theorem applied to a string leaf. -/
theorem c8_witness :
    extract_value_as_yaml "k" (Yaml.map [("k", Yaml.str "plain text")])
      = some (pyStr (Yaml.str "plain text"))
    ∧ pyStr (Yaml.str "plain text") = "plain text" :=
  ⟨c8_scalar_rendering.1 "k" _ (Yaml.str "plain text") rfl rfl
      (fun h => Yaml.noConfusion h), rfl⟩

/-! ## Claim C9: all-empty path resolves to the whole document -/

/-- C9: for a non-null document, a path whose segments are all empty
(`""`, `"."`, `".."`, ...) resolves to the document itself, which is then
rendered by the normal scalar/composite rules rather than treated as
not-found. -/
theorem c9_empty_path_whole_doc (path : String) (data : Yaml) (hnn : data ≠ Yaml.null)
    (hall : ∀ q ∈ splitDots path, q = "") :
    extract_value_as_yaml path data = renderResolved data
    ∧ (renderResolved data).isSome = true := by
  have h := resolveParts_all_empty (splitDots path) data hall
  constructor
  · unfold extract_value_as_yaml
    rw [h]
  · cases data with
    | null => exact absurd rfl hnn
    | bool b => rfl
    | int n => rfl
    | str s => rfl
    | seq xs => rfl
    | map ps => rfl

/-- C9 witness: path `"."` over the scalar document `7` renders the whole
document, produced by the theorem itself. -/
theorem c9_witness :
    extract_value_as_yaml "." (Yaml.int 7) = renderResolved (Yaml.int 7)
    ∧ (renderResolved (Yaml.int 7)).isSome = true :=
  c9_empty_path_whole_doc "." (Yaml.int 7) (fun h => Yaml.noConfusion h) (by decide)

/-! ## Claim C10: the JUnit XML filter -/

mutual

theorem beqElem_refl : ∀ c, beqElem c c = true
  | .mk t a cs => by simp [beqElem, beqElems_refl cs]

theorem beqElems_refl : ∀ cs, beqElems cs cs = true
  | [] => rfl
  | c :: cs => by simp [beqElems, beqElem_refl c, beqElems_refl cs]

end

theorem beqElem_isRemoved_compat (subs : List String) :
    ∀ a b, beqElem a b = true → isRemoved subs a = isRemoved subs b := by
  intro a b h
  cases a with
  | mk t1 a1 c1 =>
    cases b with
    | mk t2 a2 c2 =>
      simp only [beqElem, Bool.and_eq_true, beq_iff_eq] at h
      obtain ⟨⟨ht, ha⟩, -⟩ := h
      subst ht
      subst ha
      rfl

theorem foldl_erase_aux (p : XmlElem → Bool)
    (hcompat : ∀ a b, beqElem a b = true → p a = p b) :
    ∀ (toRem : List XmlElem) (c : XmlElem) (acc : List XmlElem),
      (∀ x ∈ toRem, p x = true) → p c = false →
      toRem.foldl eraseFirst (c :: acc) = c :: toRem.foldl eraseFirst acc := by
  intro toRem
  induction toRem with
  | nil => intro c acc _ _; rfl
  | cons x xs ih =>
    intro c acc hall hc
    have hbeq : beqElem c x = false := by
      cases hcx : beqElem c x
      · rfl
      · exfalso
        have hpx : p x = true := hall x (by simp)
        have := hcompat c x hcx
        rw [hc, hpx] at this
        exact Bool.noConfusion this
    show xs.foldl eraseFirst (eraseFirst (c :: acc) x) = _
    rw [show eraseFirst (c :: acc) x = c :: eraseFirst acc x by simp [eraseFirst, hbeq]]
    exact ih c (eraseFirst acc x) (fun y hy => hall y (List.mem_cons_of_mem _ hy)) hc

theorem foldl_erase_filter (p : XmlElem → Bool)
    (hcompat : ∀ a b, beqElem a b = true → p a = p b) :
    ∀ l : List XmlElem, (l.filter p).foldl eraseFirst l = l.filter (fun x => !(p x)) := by
  intro l
  induction l with
  | nil => rfl
  | cons c cs ih =>
    cases hc : p c
    · rw [List.filter_cons, if_neg (by simp [hc]), List.filter_cons, if_pos (by simp [hc])]
      rw [foldl_erase_aux p hcompat (cs.filter p) c cs
        (fun x hx => (List.mem_filter.mp hx).2) hc, ih]
    · rw [List.filter_cons, if_pos (by simp [hc]), List.filter_cons, if_neg (by simp [hc])]
      show (cs.filter p).foldl eraseFirst (eraseFirst (c :: cs) c) = _
      rw [show eraseFirst (c :: cs) c = cs by simp [eraseFirst, beqElem_refl c], ih]

theorem filterSuite_eq_spec (subs : List String) (ts : XmlElem)
    (h : (pyIntParse (getAttr ts "tests" "0")).isSome = true) :
    filterSuite subs ts = some (filterSuiteSpec subs ts) := by
  obtain ⟨n, hn⟩ := Option.isSome_iff_exists.mp h
  unfold filterSuite filterSuiteSpec
  rw [hn]
  simp only [Option.getD_some]
  rw [foldl_erase_filter (isRemoved subs) (beqElem_isRemoved_compat subs) ts.children]

/-- C10: for a report whose top-level testsuite elements carry an integer
`tests` attribute, `filter_junit_xml` rewrites each direct `testsuite`
child of the root (leaving other children alone) by removing exactly its
direct-child `testcase` elements whose `name` contains one of the filter
substrings, keeping all other children in their original order, and
setting `tests` to its previous integer value minus the number of
testcases removed from that testsuite — the one-pass form
`filterSuiteSpec`. -/
theorem c10_filter_junit (subs : List String) (root : XmlElem)
    (hall : ∀ c ∈ root.children, c.tag = "testsuite" →
      (pyIntParse (getAttr c "tests" "0")).isSome = true) :
    filterRoot subs root
      = some (.mk root.tag root.attrs (root.children.map
          (fun c => if c.tag = "testsuite" then filterSuiteSpec subs c else c))) := by
  unfold filterRoot
  have key : ∀ cs : List XmlElem,
      (∀ c ∈ cs, c.tag = "testsuite" → (pyIntParse (getAttr c "tests" "0")).isSome = true) →
      mapOption (fun c => if c.tag = "testsuite" then filterSuite subs c else some c) cs
        = some (cs.map (fun c => if c.tag = "testsuite" then filterSuiteSpec subs c else c)) := by
    intro cs
    induction cs with
    | nil => intro _; rfl
    | cons c rest ih =>
      intro h
      have hrest := ih (fun x hx hs => h x (List.mem_cons_of_mem _ hx) hs)
      by_cases htag : c.tag = "testsuite"
      · have hsuite : filterSuite subs c = some (filterSuiteSpec subs c) :=
          filterSuite_eq_spec subs c (h c (by simp) htag)
        simp [mapOption, htag, hsuite, hrest]
      · simp [mapOption, htag, hrest]
  rw [key root.children hall]
  rfl

/-- C10 witness: a root with one testsuite (`tests="2"`) holding one
matching and one non-matching testcase; the filter removes the matching
one and decrements `tests` to 1. -/
theorem c10_witness :
    filterRoot ["Extension"]
      (XmlElem.mk "testsuites" []
        [XmlElem.mk "testsuite" [("tests", "2")]
          [XmlElem.mk "testcase" [("name", "runs Extension stuff")] [],
           XmlElem.mk "testcase" [("name", "keeps")] []]])
      = some (XmlElem.mk "testsuites" []
          [XmlElem.mk "testsuite" [("tests", "1")]
            [XmlElem.mk "testcase" [("name", "keeps")] []]]) := by
  have h := c10_filter_junit ["Extension"]
    (XmlElem.mk "testsuites" []
      [XmlElem.mk "testsuite" [("tests", "2")]
        [XmlElem.mk "testcase" [("name", "runs Extension stuff")] [],
         XmlElem.mk "testcase" [("name", "keeps")] []]])
    (by
      intro c hc htag
      cases hc with
      | head => rfl
      | tail _ h2 => cases h2)
  exact h
